import Mathlib

/-!
Verification of the TimeTracker attendance-file reconciliation pipeline
(`file_operations.py`, backed by the ORM models in `models.py`).

Shallow embedding conventions:
* A spreadsheet cell is modelled by `Cell`: `na` stands for a pandas NaN/NaT,
  `dt d t` for any value that `pd.to_datetime` parses (with date ordinal `d`
  and time-of-day `t`), and `text s` for a non-null value that fails date
  parsing.  `is_date` from the source is true exactly on `dt` cells.
* The `employee_master` table is a `List Employee` (primary key `id`); the
  `daily_attendance` table is a `List AttRecord` (surrogate integer key is
  the list position; the schema has no uniqueness constraint on
  `(emp_id, attendance_date)`).
* Python strings are `String`; `str.split('-')` / `str.strip()` /
  `str.title()` are embedded as `splitCh` / `pyStrip` / `pyTitleS` over the
  character list.
* A SQLAlchemy session is embedded by explicit state passing: each function
  takes the committed table contents and returns the new committed contents.
  `commitOkB` models the primary-key check performed by the database at the
  commit of `bulk_save_objects`; `load_data_to_db_tx` adds an explicit
  storage-failure flag whose `false` value models any exception raised
  during the reconciliation transaction (the `except` branch rolls back, so
  the committed state is returned unchanged).
-/

/-- A spreadsheet cell as classified by the source's `is_date`/`pd.notna`:
`na` = NaN/NaT, `dt d t` = parseable as a datetime (date part `d`, time part
`t`), `text s` = non-null text that fails date parsing. -/
inductive Cell where
  | na : Cell
  | dt : Nat → Nat → Cell
  | text : String → Cell
deriving DecidableEq, Repr

/-- `is_date` (file_operations.py line 57): NaN is not a date, datetimes and
parseable values are. -/
def is_date (c : Cell) : Bool :=
  match c with
  | Cell.dt _ _ => true
  | _ => false

/-- A row of the `employee_master` table (`EmployeeMaster` in models.py);
the pipeline only ever writes `id` and `name`. -/
structure Employee where
  id : String
  name : String
deriving DecidableEq, Repr

/-- A row of the `daily_attendance` table (`DailyAttendance` in models.py).
Time fields are nullable. -/
structure AttRecord where
  emp_id : String
  attendance_date : Nat
  in_time : Option Nat
  out_time : Option Nat
  duration : Option Nat
deriving DecidableEq, Repr

/-- Whitespace for Python `str.strip()` (ASCII fragment). -/
def isSpaceB (c : Char) : Bool :=
  c = ' ' || c = '\t' || c = '\n' || c = '\r'

/-- Python `str.strip()` on a character list. -/
def pyStrip (l : List Char) : List Char :=
  ((l.dropWhile isSpaceB).reverse.dropWhile isSpaceB).reverse

/-- Python `str.split(sep)` for a one-character separator: split at every
occurrence, keeping empty parts (always returns at least one part). -/
def splitCh (c : Char) : List Char → List (List Char)
  | [] => [[]]
  | x :: xs =>
    match splitCh c xs with
    | [] => [[]]
    | h :: t => if x = c then [] :: h :: t else (x :: h) :: t

/-- Helper for Python `str.title()`: the flag records whether the previous
character was alphabetic (cased). -/
def pyTitleGo : Bool → List Char → List Char
  | _, [] => []
  | prevAlpha, ch :: rest =>
    if ch.isAlpha then
      (if prevAlpha then ch.toLower else ch.toUpper) :: pyTitleGo true rest
    else ch :: pyTitleGo false rest

/-- Python `str.title()` (ASCII fragment). -/
def pyTitleS (s : String) : String := ⟨pyTitleGo false s.toList⟩

/-- `extract_user_info` (file_operations.py lines 71-88): split the label on
every `'-'`; fewer than two parts means failure; otherwise return the
stripped first and second parts (parts beyond the second are discarded). -/
def extract_user_info (full_name : String) : Option (String × String) :=
  match splitCh '-' full_name.toList with
  | p0 :: p1 :: _ => some (⟨pyStrip p0⟩, ⟨pyStrip p1⟩)
  | _ => none

/-- First-match association lookup, the behaviour of Python `dict.get` here
(all dictionaries built below have pairwise distinct keys). -/
def lookupStr (k : String) : List (String × String) → Option String
  | [] => none
  | (k', v) :: rest => if k' = k then some v else lookupStr k rest

/-- `True` iff the list has no duplicate entries (used to model the
primary-key constraint of `employee_master`). -/
def nodupB : List String → Bool
  | [] => true
  | x :: xs => !(xs.any (fun y => decide (y = x))) && nodupB xs

/-- The database's primary-key check at the commit of `bulk_save_objects`:
the insert succeeds iff the new rows' ids are pairwise distinct and none is
already present in the table.  A violation raises `IntegrityError`. -/
def commitOkB (db : List Employee) (new : List Employee) : Bool :=
  nodupB (new.map (fun e => e.id)) &&
    !(new.any (fun nu => db.any (fun e => decide (e.id = nu.id))))

/-- One entry of `user_info` (file_operations.py lines 109-113): a label is
kept iff `extract_user_info` succeeds and both parts are non-empty (Python
truthiness of `user_id` and `name`); the display name is title-cased.
The entry is `(label, id, titled name)`. -/
def parseEntry (un : String) : Option (String × String × String) :=
  match extract_user_info un with
  | some (uid, nm) => if uid ≠ "" ∧ nm ≠ "" then some (un, uid, pyTitleS nm) else none
  | none => none

/-- The `user_info` dictionary of `get_or_create_users_batch`: one entry per
distinct label that parses.  (`dict` keying collapses duplicate labels;
`List.dedup` keeps one occurrence per label — which occurrence survives does
not affect any lookup or membership below.) -/
def userInfo (user_names : List String) : List (String × String × String) :=
  (user_names.dedup).filterMap parseEntry

/-- `existing_ids` (file_operations.py lines 122-128): the ids of the
employees fetched by the one `IN`-query over the parsed id set
(`user_ids = P.map (fun i => i.2.1)`). -/
def gocbExisting (P : List (String × String × String)) (db : List Employee) : List String :=
  (db.filter (fun e => (P.map (fun i => i.2.1)).any (fun u => decide (u = e.id)))).map
    (fun e => e.id)

/-- Whether a `user_info` entry's id is already present (`info['id'] in
existing_ids`). -/
def gocbHit (P : List (String × String × String)) (db : List Employee)
    (i : String × String × String) : Bool :=
  (gocbExisting P db).any (fun u => decide (u = i.2.1))

/-- `new_users` (lines 136-142): one `EmployeeMaster` object per
`user_info` entry whose id is not yet present — note: per entry, not per
distinct id. -/
def gocbNew (P : List (String × String × String)) (db : List Employee) : List Employee :=
  P.filterMap (fun i => if gocbHit P db i then none else some (Employee.mk i.2.1 i.2.2))

/-- The `user_id_map` bindings added for existing users (lines 130-133). -/
def gocbMapExisting (P : List (String × String × String)) (db : List Employee) :
    List (String × String) :=
  P.filterMap (fun i => if gocbHit P db i then some (i.1, i.2.1) else none)

/-- The `user_id_map` bindings added for newly created users (lines
136-142). -/
def gocbMapNew (P : List (String × String × String)) (db : List Employee) :
    List (String × String) :=
  P.filterMap (fun i => if gocbHit P db i then none else some (i.1, i.2.1))

/-- `get_or_create_users_batch` (file_operations.py lines 91-161).
Parses all labels, fetches existing employees for the parsed id set in one
query, creates the missing ones in one bulk write, and returns the new
committed table plus the label → id map.  The `except` branch (e.g. an
`IntegrityError` at commit) rolls back and returns an empty map, leaving the
table unchanged. -/
def get_or_create_users_batch (user_names : List String) (db : List Employee) :
    List Employee × List (String × String) :=
  let user_info := userInfo user_names
  if user_info.isEmpty then (db, [])
  else if commitOkB db (gocbNew user_info db) then
    (db ++ gocbNew user_info db, gocbMapExisting user_info db ++ gocbMapNew user_info db)
  else (db, [])

/-- A raw spreadsheet after the fixed-offset header normalization of
`clean_data` lines 181-184 (`df.columns = df.iloc[2]`, data from row 4):
the derived column names and the data rows.  A row shorter than the header
reads as NaN in the missing columns, as in pandas. -/
structure RawSheet where
  header : List String
  rows : List (List Cell)
deriving DecidableEq, Repr

/-- Column access `row[name]`: `none` models the `KeyError` raised when the
column is absent from the header. -/
def getCell (header : List String) (row : List Cell) (name : String) : Option Cell :=
  match header.findIdx? (fun h => decide (h = name)) with
  | some i => some (row.getD i Cell.na)
  | none => none

/-- Presence of a column in the header. -/
def hasCol (header : List String) (name : String) : Bool :=
  (header.findIdx? (fun h => decide (h = name))).isSome

/-- Whether a `Date`-column value is a label (non-null and not a date),
i.e. the row-classification test of `clean_data` lines 190 and 212. -/
def isLabelCell : Option Cell → Bool
  | some (Cell.text _) => true
  | _ => false

/-- STEP 1 of `clean_data` (lines 186-194): collect every `Date`-column
value that is non-null and fails date parsing.  `none` models the
`KeyError` raised on the first row access when the `Date` column is
missing (with no rows the loop body never runs). -/
def collectLabels (sheet : RawSheet) : Option (List String) :=
  if hasCol sheet.header "Date" then
    some (sheet.rows.filterMap (fun r =>
      match getCell sheet.header r "Date" with
      | some (Cell.text s) => some s
      | _ => none))
  else if sheet.rows.isEmpty then some [] else none

/-- STEP 3 of `clean_data` (lines 204-227): walk the rows carrying
`current_user_id`; a label row updates it via `user_id_map.get` and is
dropped, a NaN row is dropped, a date row is kept tagged with the current
(possibly unset) user id.  The `none` branch of `getCell` is unreachable
here because STEP 1 already established the `Date` column exists. -/
def assignLoop (m : List (String × String)) (header : List String) :
    Option String → List (List Cell) → List (Option String × List Cell)
  | _, [] => []
  | cur, r :: rs =>
    match getCell header r "Date" with
    | some (Cell.text s) => assignLoop m header (lookupStr s m) rs
    | some Cell.na => assignLoop m header cur rs
    | some (Cell.dt _ _) => (cur, r) :: assignLoop m header cur rs
    | none => assignLoop m header cur rs

/-- The `current_user_id` value after processing a list of rows (used to
split `assignLoop` across list concatenation). -/
def curAfter (m : List (String × String)) (header : List String) :
    Option String → List (List Cell) → Option String
  | cur, [] => cur
  | cur, r :: rs =>
    match getCell header r "Date" with
    | some (Cell.text s) => curAfter m header (lookupStr s m) rs
    | _ => curAfter m header cur rs

/-- A cleaned row: the column selection of `clean_data` line 237. -/
structure CRow where
  user_id : String
  date : Cell
  firstIn : Cell
  lastOut : Cell
  gross : Cell
deriving DecidableEq, Repr

/-- Build one cleaned row from a kept data row. -/
def toCRow (header : List String) (uid : String) (r : List Cell) : CRow :=
  ⟨uid, (getCell header r "Date").getD Cell.na, (getCell header r "First IN").getD Cell.na,
    (getCell header r "Last OUT").getD Cell.na, (getCell header r "Gross Hours").getD Cell.na⟩

/-- The required columns checked at `clean_data` lines 230-235.  The code's
`keep_cols` also lists `user_id`, but that column is synthesized by STEP 3
itself (line 204) and therefore always present; the check can only fail on
these four file columns. -/
def requiredCols : List String := ["Date", "First IN", "Last OUT", "Gross Hours"]

/-- `clean_data` (file_operations.py lines 164-257) over the committed
`employee_master` table.  Returns the new committed table (STEP 2 commits
employee creations) and the cleaned rows, or `none` when the function
returns `None` (empty map → `ValueError`; missing column → `KeyError`).
The code performs the required-column check after the row walk; both are
pure, so they commute. -/
def clean_data (sheet : RawSheet) (db : List Employee) :
    List Employee × Option (List CRow) :=
  match collectLabels sheet with
  | none => (db, none)
  | some names =>
    let res := get_or_create_users_batch names db
    if res.2.isEmpty then (res.1, none)
    else if requiredCols.all (fun c => hasCol sheet.header c) then
      (res.1, some ((assignLoop res.2 sheet.header none sheet.rows).filterMap
        (fun p => p.1.map (fun uid => toCRow sheet.header uid p.2))))
    else (res.1, none)

/-- `pd.to_datetime(x, errors='coerce').dt.date` on a cell. -/
def toDate (c : Cell) : Option Nat :=
  match c with
  | Cell.dt d _ => some d
  | _ => none

/-- `pd.to_datetime(x, errors='coerce').dt.time` on a cell. -/
def toTime (c : Cell) : Option Nat :=
  match c with
  | Cell.dt _ t => some t
  | _ => none

/-- A cleaned row after the datetime coercions of `load_data_to_db` lines
279-282, kept only when its date parsed (line 288). -/
structure VRow where
  user_id : String
  date : Nat
  in_time : Option Nat
  out_time : Option Nat
  duration : Option Nat
deriving DecidableEq, Repr

/-- Coerce one cleaned row; `none` iff its date fails to parse. -/
def coerceRow (r : CRow) : Option VRow :=
  (toDate r.date).map (fun d =>
    ⟨r.user_id, d, toTime r.firstIn, toTime r.lastOut, toTime r.gross⟩)

/-- The rows surviving the invalid-date filter (`load_data_to_db` line 288). -/
def validRows (df : List CRow) : List VRow := df.filterMap coerceRow

/-- `df['Date'].min()` over the valid rows. -/
def minDate (vs : List VRow) : Nat :=
  match vs with
  | [] => 0
  | v :: rest => rest.foldl (fun m r => Nat.min m r.date) v.date

/-- `df['Date'].max()` over the valid rows. -/
def maxDate (vs : List VRow) : Nat :=
  match vs with
  | [] => 0
  | v :: rest => rest.foldl (fun m r => Nat.max m r.date) v.date

/-- Range test `DailyAttendance.attendance_date.between(lo, hi)`. -/
def inRange (lo hi : Nat) (r : AttRecord) : Bool :=
  decide (lo ≤ r.attendance_date) && decide (r.attendance_date ≤ hi)

/-- Worker for `buildDict`, carrying the list position (the record's
identity in the session). -/
def buildDictGo (lo hi : Nat) (i : Nat) : List AttRecord → List ((String × Nat) × Nat)
  | [] => []
  | r :: rs =>
    if inRange lo hi r then ((r.emp_id, r.attendance_date), i) :: buildDictGo lo hi (i + 1) rs
    else buildDictGo lo hi (i + 1) rs

/-- `existing_records_dict` (`load_data_to_db` lines 303-311): the in-range
records keyed by `(emp_id, attendance_date)`; the value is the record's
position in the table. -/
def buildDict (db : List AttRecord) (lo hi : Nat) : List ((String × Nat) × Nat) :=
  buildDictGo lo hi 0 db

/-- Python `dict` lookup: the last binding of a key wins (the dict
comprehension overwrites earlier records sharing a key). -/
def dictGet (d : List ((String × Nat) × Nat)) (k : String × Nat) : Option Nat :=
  match d with
  | [] => none
  | e :: es =>
    match dictGet es k with
    | some v => some v
    | none => if e.1 = k then some e.2 else none

/-- The record prepared for bulk insert (`load_data_to_db` lines 330-336). -/
def mkRec (v : VRow) : AttRecord :=
  ⟨v.user_id, v.date, v.in_time, v.out_time, v.duration⟩

/-- The per-row loop of `load_data_to_db` (lines 318-336) over the session:
a dict hit overwrites the time fields of the record at the stored position
(`updated_count += 1`); a miss queues the row for bulk insert.  The dict is
never extended during the loop. -/
def processRows (dict : List ((String × Nat) × Nat)) :
    List AttRecord × List AttRecord × Nat → List VRow → List AttRecord × List AttRecord × Nat
  | st, [] => st
  | (db, ins, upd), v :: rest =>
    match dictGet dict (v.user_id, v.date) with
    | some i =>
      let db' := match db.get? i with
        | some old =>
          db.set i
            { old with in_time := v.in_time, out_time := v.out_time, duration := v.duration }
        | none => db
      processRows dict (db', ins, upd + 1) rest
    | none => processRows dict (db, ins ++ [mkRec v], upd) rest

/-- The observable outcome of `load_data_to_db`: the committed table, the
boolean the function returns to its caller, and the two counts it writes to
the log (lines 346-347) — the counts are not part of the return value. -/
structure LoadResult where
  db : List AttRecord
  ret : Bool
  logInserted : Nat
  logUpdated : Nat
deriving DecidableEq, Repr

/-- `load_data_to_db` (file_operations.py lines 260-362): coerce the
date/time columns, drop rows with unparseable dates, fetch the existing
records of the file's date range, update hits in place, bulk-insert misses,
and commit everything at once (line 344). -/
def load_data_to_db (df : List CRow) (db : List AttRecord) : LoadResult :=
  if df.isEmpty then ⟨db, false, 0, 0⟩
  else
    let vs := validRows df
    if vs.isEmpty then ⟨db, false, 0, 0⟩
    else
      let lo := minDate vs
      let hi := maxDate vs
      let dict := buildDict db lo hi
      let res := processRows dict (db, [], 0) vs
      ⟨res.1 ++ res.2.1, true, res.2.1.length, res.2.2⟩

/-- `load_data_to_db` with an explicit storage-failure flag:
`storageOk = false` models any exception raised by a storage operation
inside the reconciliation transaction (query, flush of the updates, bulk
insert, or commit); the `except` branch (lines 352-358) rolls the
transaction back, so the committed table is returned unchanged and the
function returns `False`. -/
def load_data_to_db_tx (df : List CRow) (db : List AttRecord) (storageOk : Bool) :
    LoadResult :=
  if storageOk then load_data_to_db df db else ⟨db, false, 0, 0⟩

/-- `clean_data` followed by `load_data_to_db` as sequenced by
`process_file` (lines 419-428), with the `df_cleaned.empty` guard. -/
def importFile (sheet : RawSheet) (edb : List Employee) (adb : List AttRecord) :
    List Employee × List AttRecord × Bool :=
  match clean_data sheet edb with
  | (edb', none) => (edb', adb, false)
  | (edb', some df) =>
    if df.isEmpty then (edb', adb, false)
    else
      let r := load_data_to_db df adb
      (edb', r.db, r.ret)

/-- The caller-visible outcome of `process_file`: both committed tables, the
returned boolean, and whether the source file was archived. -/
structure ProcResult where
  edb : List Employee
  adb : List AttRecord
  ok : Bool
  archived : Bool
deriving DecidableEq, Repr

/-- `process_file` (file_operations.py lines 405-439): read → clean → load →
move.  `read = none` models a failed `read_xls_file`; `moveOk` is the result
of `move_file`.  A `move_file` failure after a successful load is only
logged (line 432) — the function still returns `True` and the committed
tables are untouched. -/
def process_file (read : Option RawSheet) (edb : List Employee) (adb : List AttRecord)
    (storageOk moveOk : Bool) : ProcResult :=
  match read with
  | none => ⟨edb, adb, false, false⟩
  | some sheet =>
    match clean_data sheet edb with
    | (edb', none) => ⟨edb', adb, false, false⟩
    | (edb', some df) =>
      if df.isEmpty then ⟨edb', adb, false, false⟩
      else
        let r := load_data_to_db_tx df adb storageOk
        if r.ret then ⟨edb', r.db, true, moveOk⟩
        else ⟨edb', r.db, false, false⟩

/-! ### Concrete inputs used by counterexamples and witnesses -/

/-- The header of a well-formed export. -/
def demoHeader : List String := ["Date", "First IN", "Last OUT", "Gross Hours"]

/-- A label row: its `Date` cell holds the employee label, the remaining
columns read as NaN. -/
def labelRow (s : String) : List Cell := [Cell.text s]

/-- A data row for date `d` with first-in `t1`, last-out `t2`, gross `t3`. -/
def dayRow (d t1 t2 t3 : Nat) : List Cell :=
  [Cell.dt d 0, Cell.dt 0 t1, Cell.dt 0 t2, Cell.dt 0 t3]

/-- A three-day export for employee `101 - John Doe`. -/
def c1sheet : RawSheet :=
  ⟨demoHeader,
    [labelRow "101 - John Doe", dayRow 1 540 1020 480, dayRow 2 541 1021 480,
      dayRow 3 542 1022 481]⟩

/-- An export containing two rows for the same employee and date. -/
def c2sheet : RawSheet :=
  ⟨demoHeader, [labelRow "101 - John Doe", dayRow 5 540 1020 480, dayRow 5 600 1080 480]⟩

/-- An export whose header lacks the `Gross Hours` column. -/
def c3sheet : RawSheet :=
  ⟨["Date", "First IN", "Last OUT"],
    [labelRow "101 - John Doe", [Cell.dt 1 0, Cell.dt 0 540, Cell.dt 0 1020]]⟩

/-- A one-row cleaned frame. -/
def c8df1 : List CRow := [⟨"101", Cell.dt 5 0, Cell.dt 0 540, Cell.dt 0 1020, Cell.dt 0 480⟩]

/-- The same frame plus one row whose date fails to parse (that row is
dropped — "skipped" — by `load_data_to_db` line 288). -/
def c8df2 : List CRow := c8df1 ++ [⟨"101", Cell.text "oops", Cell.na, Cell.na, Cell.na⟩]

/-- An export opening with an unparseable label followed by a data row. -/
def c7full : RawSheet :=
  ⟨demoHeader,
    [labelRow "JohnDoe", dayRow 1 540 1020 480, labelRow "101 - John Doe",
      dayRow 2 541 1021 480]⟩

/-- An export with a data row before the first label row. -/
def c10full : RawSheet :=
  ⟨demoHeader, [dayRow 1 540 1020 480, labelRow "101 - John Doe", dayRow 2 541 1021 480]⟩

/-! ### Claim theorems -/

/-- C2 (code bug): reconciling an import whose file contains two rows for
the same `(employee, date)` — here employee `101`, date `5` — against an
empty store that trivially satisfies the invariant leaves **two**
`AttendanceRecord`s with that key: the existing-records dict is built once
before the loop (lines 303-311) and never extended, so both rows are queued
for insert, and the schema has no unique constraint on
`(emp_id, attendance_date)` to stop the commit. -/
theorem c2_duplicate_rows_create_duplicate_records :
    (importFile c2sheet [] []).2.2 = true ∧
      ((importFile c2sheet [] []).2.1.countP
        (fun r => decide (r.emp_id = "101") && decide (r.attendance_date = 5))) = 2 := by
  decide

/-- C5 (code bug): two distinct valid labels carrying the same identifier
(`"101 - John Doe"` and `"101 - Jon Doe"`) make `get_or_create_users_batch`
queue two `EmployeeMaster` rows with primary key `101` in one bulk write
(deduplication at lines 136-142 is by label, not by id); the commit violates
the primary key, the except-branch rolls back, and the whole batch returns
an empty map — the identifier is not created and the batch fails. -/
theorem c5_duplicate_identifier_batch_fails :
    get_or_create_users_batch ["101 - John Doe", "101 - Jon Doe"] [] = ([], []) := by
  decide

/-- C6 counterexample: for the label `"101 - Mary-Jane Doe"` the parser
returns the name `"Mary"`, not the full display name `"Mary-Jane Doe"`:
`split('-')` (line 80) splits on every separator and `parts[1]` is only the
segment between the first and second `'-'`. -/
theorem c6_hyphenated_name_truncated :
    extract_user_info "101 - Mary-Jane Doe" = some ("101", "Mary") ∧
      ("Mary" : String) ≠ "Mary-Jane Doe" := by
  decide

/-- C3 counterexample: a file whose header has `Date`, `First IN` and
`Last OUT` but lacks `Gross Hours` fails the import (`clean_data` returns
`None`), yet the Employee row `(101, John Doe)` has already been created and
committed: `get_or_create_users_batch` commits at line 147, before the
required-columns check at lines 233-235. -/
theorem c3_missing_column_writes_employees :
    clean_data c3sheet [] = ([Employee.mk "101" "John Doe"], none) ∧
      ([Employee.mk "101" "John Doe"] : List Employee) ≠ [] := by
  decide

/-- C8 counterexample: two imports that differ precisely in one skipped row
(`c8df2` has an extra row whose date fails to parse and is dropped at line
288) produce **identical** `load_data_to_db` outcomes — same committed
table, same returned boolean, same logged counts — so the operation's result
value carries no `skipped` count; the code returns only a boolean
(lines 350/358) and merely logs `inserted`/`updated`. -/
theorem c8_counts_not_returned :
    load_data_to_db c8df2 [] = load_data_to_db c8df1 [] ∧ c8df2 ≠ c8df1 := by
  decide

/-- C4: reconciliation is all-or-nothing.  Whenever `load_data_to_db`
reports failure — in particular when any storage operation inside the
transaction raises (`storageOk = false`, rolled back at line 354) — the
committed attendance table is exactly what it was before reconciliation
began; all updates and the batch insert only reach the table through the
single commit at line 344. -/
theorem c4_reconciliation_atomic (df : List CRow) (db : List AttRecord) (storageOk : Bool)
    (hfail : (load_data_to_db_tx df db storageOk).ret = false) :
    (load_data_to_db_tx df db storageOk).db = db := by
  cases storageOk with
  | false => rfl
  | true =>
    simp only [load_data_to_db_tx, if_true] at hfail ⊢
    unfold load_data_to_db at hfail ⊢
    by_cases h1 : df.isEmpty
    · simp [h1]
    · by_cases h2 : (validRows df).isEmpty
      · simp [h1, h2]
      · simp [h1, h2] at hfail

/-- Witness for C4 at a concrete input: a storage failure during the
reconciliation of `c8df1` leaves the empty table empty. -/
theorem c4_reconciliation_atomic_witness :
    (load_data_to_db_tx c8df1 [] false).ret = false ∧
      (load_data_to_db_tx c8df1 [] false).db = [] :=
  ⟨by decide, c4_reconciliation_atomic c8df1 [] false (by decide)⟩

/-- C9: when reconciliation commits successfully, a failure of the
subsequent archival step changes nothing but the `archived` flag: the
orchestrator still reports success (`move_file`'s failure is only logged,
`process_file` lines 431-435) and the committed employee and attendance
tables are identical to those of a run whose archival succeeded. -/
theorem c9_archival_failure_nonfatal (sheet : RawSheet) (edb : List Employee)
    (adb : List AttRecord)
    (hok : (process_file (some sheet) edb adb true true).ok = true) :
    process_file (some sheet) edb adb true false =
      { process_file (some sheet) edb adb true true with archived := false } := by
  simp only [process_file] at hok ⊢
  rcases hc : clean_data sheet edb with ⟨e', o⟩
  rw [hc] at hok
  cases o with
  | none => simp at hok
  | some df =>
    by_cases hdf : df.isEmpty
    · simp [hdf] at hok
    · simp only [hdf, Bool.false_eq_true, if_false] at hok ⊢
      by_cases hr : (load_data_to_db_tx df adb true).ret
      · simp [hr]
      · simp [hr] at hok

/-- Witness for C9 at a concrete import whose reconciliation succeeds. -/
theorem c9_archival_failure_nonfatal_witness :
    (process_file (some c1sheet) [] [] true true).ok = true ∧
      process_file (some c1sheet) [] [] true false =
        { process_file (some c1sheet) [] [] true true with archived := false } :=
  ⟨by decide, c9_archival_failure_nonfatal c1sheet [] [] (by decide)⟩

/-- C3 amended: the columns the file must supply are `Date`, `First IN`,
`Last OUT` and `Gross Hours` (`user_id` is synthesized by the cleaner
itself, line 204, so it can never be missing).  When any of them is absent
the import fails and no AttendanceRecord is ever written; when the missing
column is `Date` no write of any kind occurs; but when `Date` is present
and another required column is missing, the Employee creations of identity
resolution have already been committed before the check (see the
counterexample theorem). -/
theorem c3_amended_missing_columns_fail (sheet : RawSheet) (edb : List Employee)
    (adb : List AttRecord)
    (hmiss : requiredCols.all (fun c => hasCol sheet.header c) = false) :
    (clean_data sheet edb).2 = none ∧
      importFile sheet edb adb = ((clean_data sheet edb).1, adb, false) ∧
      (hasCol sheet.header "Date" = false → (clean_data sheet edb).1 = edb) := by
  have h2 : (clean_data sheet edb).2 = none := by
    unfold clean_data
    cases hcol : collectLabels sheet with
    | none => rfl
    | some names =>
      by_cases hres : (get_or_create_users_batch names edb).2.isEmpty
      · simp [hres]
      · simp [hres, hmiss]
  refine ⟨h2, ?_, ?_⟩
  · unfold importFile
    rcases hc : clean_data sheet edb with ⟨e', o⟩
    rw [hc] at h2
    simp only at h2
    subst h2
    rfl
  · intro hd
    unfold clean_data collectLabels
    rw [hd]
    by_cases hrows : sheet.rows.isEmpty
    · simp [hrows, get_or_create_users_batch, userInfo]
    · simp [hrows]

/-- Witness for amended C3: the header of `c3sheet` lacks `Gross Hours`. -/
theorem c3_amended_missing_columns_fail_witness :
    requiredCols.all (fun c => hasCol c3sheet.header c) = false ∧
      ((clean_data c3sheet []).2 = none ∧
        importFile c3sheet [] [] = ((clean_data c3sheet []).1, [], false) ∧
        (hasCol c3sheet.header "Date" = false → (clean_data c3sheet []).1 = [])) :=
  ⟨by decide, c3_amended_missing_columns_fail c3sheet [] [] (by decide)⟩

/-- Splitting `assignLoop` across concatenation: the second half starts from
the `current_user_id` left by the first half. -/
theorem assignLoop_append (m : List (String × String)) (header : List String)
    (cur : Option String) (xs ys : List (List Cell)) :
    assignLoop m header cur (xs ++ ys) =
      assignLoop m header cur xs ++ assignLoop m header (curAfter m header cur xs) ys := by
  induction xs generalizing cur with
  | nil => rfl
  | cons r rs ih =>
    simp only [List.cons_append, assignLoop, curAfter]
    cases hg : getCell header r "Date" with
    | none => exact ih cur
    | some c =>
      cases c with
      | na => exact ih cur
      | dt d t => simp [ih cur]
      | text s => exact ih (lookupStr s m)

/-- Rows without a label in the `Date` column leave `current_user_id`
untouched. -/
theorem curAfter_nolabel (m : List (String × String)) (header : List String)
    (cur : Option String) (xs : List (List Cell))
    (h : ∀ q ∈ xs, isLabelCell (getCell header q "Date") = false) :
    curAfter m header cur xs = cur := by
  induction xs generalizing cur with
  | nil => rfl
  | cons r rs ih =>
    have hr := h r (List.mem_cons_self r rs)
    have hrs : ∀ q ∈ rs, isLabelCell (getCell header q "Date") = false :=
      fun q hq => h q (List.mem_cons_of_mem r hq)
    simp only [curAfter]
    cases hg : getCell header r "Date" with
    | none => exact ih cur hrs
    | some c =>
      cases c with
      | na => exact ih cur hrs
      | dt d t => exact ih cur hrs
      | text s => rw [hg] at hr; simp [isLabelCell] at hr

/-- Over rows without a label, every entry produced by `assignLoop` carries
the unchanged `current_user_id`. -/
theorem assignLoop_nolabel (m : List (String × String)) (header : List String)
    (cur : Option String) (xs : List (List Cell))
    (h : ∀ q ∈ xs, isLabelCell (getCell header q "Date") = false) :
    ∀ p ∈ assignLoop m header cur xs, p.1 = cur := by
  induction xs generalizing cur with
  | nil => intro p hp; simp [assignLoop] at hp
  | cons r rs ih =>
    have hr := h r (List.mem_cons_self r rs)
    have hrs : ∀ q ∈ rs, isLabelCell (getCell header q "Date") = false :=
      fun q hq => h q (List.mem_cons_of_mem r hq)
    intro p hp
    simp only [assignLoop] at hp
    cases hg : getCell header r "Date" with
    | none => rw [hg] at hp; exact ih cur hrs p hp
    | some c =>
      cases c with
      | na => rw [hg] at hp; exact ih cur hrs p hp
      | dt d t =>
        rw [hg] at hp
        rcases List.mem_cons.mp hp with h1 | h1
        · rw [h1]
        · exact ih cur hrs p h1
      | text s => rw [hg] at hr; simp [isLabelCell] at hr

/-- Rows without a label contribute nothing to STEP 1's label collection. -/
theorem collectNames_nolabel_nil (header : List String) (xs : List (List Cell))
    (h : ∀ q ∈ xs, isLabelCell (getCell header q "Date") = false) :
    xs.filterMap (fun r =>
      match getCell header r "Date" with
      | some (Cell.text s) => some s
      | _ => none) = [] := by
  induction xs with
  | nil => rfl
  | cons r rs ih =>
    have hr := h r (List.mem_cons_self r rs)
    have hrs : ∀ q ∈ rs, isLabelCell (getCell header q "Date") = false :=
      fun q hq => h q (List.mem_cons_of_mem r hq)
    simp only [List.filterMap_cons]
    cases hg : getCell header r "Date" with
    | none => exact ih hrs
    | some c =>
      cases c with
      | na => exact ih hrs
      | dt d t => exact ih hrs
      | text s => rw [hg] at hr; simp [isLabelCell] at hr

/-- A key absent from every binding is not found. -/
theorem lookupStr_eq_none_of_forall (s : String) (m : List (String × String))
    (h : ∀ p ∈ m, p.1 ≠ s) : lookupStr s m = none := by
  induction m with
  | nil => rfl
  | cons p rest ih =>
    rcases p with ⟨k, v⟩
    have hk : k ≠ s := h (k, v) (List.mem_cons_self _ _)
    simp only [lookupStr, if_neg hk]
    exact ih (fun q hq => h q (List.mem_cons_of_mem _ hq))

/-- Membership in a `filterMap` whose function is `if c x then some (f x)
else none`. -/
theorem mem_filterMap_ite_some {α β : Type} (l : List α) (c : α → Bool) (f : α → β)
    (b : β) (hb : b ∈ l.filterMap (fun x => if c x then some (f x) else none)) :
    ∃ x, x ∈ l ∧ b = f x := by
  rcases List.mem_filterMap.mp hb with ⟨x, hx, hcase⟩
  by_cases hc : c x
  · rw [if_pos hc] at hcase
    exact ⟨x, hx, (Option.some.inj hcase).symm⟩
  · rw [if_neg hc] at hcase; cases hcase

/-- Membership in a `filterMap` whose function is `if c x then none else
some (f x)`. -/
theorem mem_filterMap_ite_none {α β : Type} (l : List α) (c : α → Bool) (f : α → β)
    (b : β) (hb : b ∈ l.filterMap (fun x => if c x then none else some (f x))) :
    ∃ x, x ∈ l ∧ b = f x := by
  rcases List.mem_filterMap.mp hb with ⟨x, hx, hcase⟩
  by_cases hc : c x
  · rw [if_pos hc] at hcase; cases hcase
  · rw [if_neg hc] at hcase
    exact ⟨x, hx, (Option.some.inj hcase).symm⟩

/-- Every `user_info` entry comes from a label that parses with non-empty
id and name parts. -/
theorem userInfo_mem_extract (ns : List String) (i : String × String × String)
    (hi : i ∈ userInfo ns) :
    ∃ uid nm, extract_user_info i.1 = some (uid, nm) ∧ uid ≠ "" ∧ nm ≠ "" ∧
      i.2.1 = uid ∧ i.2.2 = pyTitleS nm := by
  rcases List.mem_filterMap.mp hi with ⟨un, _, hun⟩
  unfold parseEntry at hun
  cases he : extract_user_info un with
  | none => rw [he] at hun; cases hun
  | some pr =>
    rcases pr with ⟨uid, nm⟩
    rw [he] at hun
    dsimp only at hun
    by_cases hcond : uid ≠ "" ∧ nm ≠ ""
    · rw [if_pos hcond] at hun
      cases hun
      exact ⟨uid, nm, he, hcond.1, hcond.2, rfl, rfl⟩
    · rw [if_neg hcond] at hun; cases hun

/-- Every binding of the map returned by `get_or_create_users_batch` pairs
a `user_info` label with its parsed id. -/
theorem gocb_map_mem (ns : List String) (db : List Employee)
    (p : String × String) (hp : p ∈ (get_or_create_users_batch ns db).2) :
    ∃ i, i ∈ userInfo ns ∧ p = (i.1, i.2.1) := by
  simp only [get_or_create_users_batch] at hp
  by_cases h0 : (userInfo ns).isEmpty
  · simp only [h0, if_true] at hp; cases hp
  · simp only [h0, Bool.false_eq_true, if_false] at hp
    split at hp
    · rcases List.mem_append.mp hp with hm | hm
      · exact mem_filterMap_ite_some _ _ _ _ hm
      · exact mem_filterMap_ite_none _ _ _ _ hm
    · cases hp

/-- Every key of the map returned by `get_or_create_users_batch` is a label
on which `extract_user_info` succeeds. -/
theorem gocb_map_keys_parse (ns : List String) (db : List Employee)
    (p : String × String) (hp : p ∈ (get_or_create_users_batch ns db).2) :
    extract_user_info p.1 ≠ none := by
  rcases gocb_map_mem ns db p hp with ⟨i, hi, hpi⟩
  rcases userInfo_mem_extract ns i hi with ⟨uid, nm, he, _⟩
  rw [hpi]
  simp [he]

/-- A successful column access implies the column is present. -/
theorem hasCol_of_getCell (header : List String) (r : List Cell) (n : String) (c : Cell)
    (h : getCell header r n = some c) : hasCol header n = true := by
  unfold getCell at h
  unfold hasCol
  cases hf : header.findIdx? (fun x => decide (x = n)) with
  | none => rw [hf] at h; cases h
  | some i => simp [hf]

/-- Entries whose user id is unset are dropped by the final filter of
`clean_data` (line 240). -/
theorem filterMap_optmap_none (header : List String)
    (l : List (Option String × List Cell)) (h : ∀ p ∈ l, p.1 = none) :
    l.filterMap (fun p => p.1.map (fun uid => toCRow header uid p.2)) = [] := by
  induction l with
  | nil => rfl
  | cons p rest ih =>
    have hp := h p (List.mem_cons_self _ _)
    simp only [List.filterMap_cons, hp, Option.map_none']
    exact ih (fun q hq => h q (List.mem_cons_of_mem _ hq))

/-- C7: a label row whose text has no separator (`extract_user_info` fails
on it) is skipped, and every data row after it, up to the next label row,
is excluded from the cleaned output handed to reconciliation: deleting that
whole block does not change `clean_data`'s result at all.  The unparseable
label is collected by STEP 1 but filtered out of `user_info`, so
`user_id_map.get` returns `None` (line 214) and the rows underneath are
dropped by the final `user_id`-notna filter (line 240). -/
theorem c7_dropped_label_block_excluded (header : List String)
    (pre mid rest : List (List Cell)) (r : List Cell) (s : String)
    (edb : List Employee)
    (hr : getCell header r "Date" = some (Cell.text s))
    (hbad : extract_user_info s = none)
    (hmid : ∀ q ∈ mid, isLabelCell (getCell header q "Date") = false) :
    clean_data ⟨header, pre ++ r :: (mid ++ rest)⟩ edb =
      clean_data ⟨header, pre ++ r :: rest⟩ edb := by
  have hcol : hasCol header "Date" = true := hasCol_of_getCell header r "Date" _ hr
  have hnames : collectLabels ⟨header, pre ++ r :: (mid ++ rest)⟩ =
      collectLabels ⟨header, pre ++ r :: rest⟩ := by
    unfold collectLabels
    simp only [hcol, if_true]
    congr 1
    simp only [List.filterMap_append, List.filterMap_cons, hr]
    rw [collectNames_nolabel_nil header mid hmid]
    simp
  unfold clean_data
  rw [hnames]
  cases hn : collectLabels ⟨header, pre ++ r :: rest⟩ with
  | none => rfl
  | some names =>
    by_cases hm : (get_or_create_users_batch names edb).2.isEmpty
    · simp [hm]
    · by_cases hk : requiredCols.all (fun c => hasCol header c)
      · have hknone : lookupStr s (get_or_create_users_batch names edb).2 = none := by
          apply lookupStr_eq_none_of_forall
          intro p hp heq
          exact gocb_map_keys_parse names edb p hp (heq ▸ hbad)
        simp only [hm, Bool.false_eq_true, if_false, hk, if_true]
        congr 2
        rw [assignLoop_append _ _ _ pre (r :: (mid ++ rest)),
          assignLoop_append _ _ _ pre (r :: rest)]
        simp only [assignLoop, hr, hknone]
        rw [assignLoop_append _ _ none mid rest,
          curAfter_nolabel _ _ none mid hmid]
        rw [List.filterMap_append, List.filterMap_append, List.filterMap_append,
          filterMap_optmap_none header (assignLoop _ header none mid)
            (assignLoop_nolabel _ header none mid hmid)]
        simp
      · simp [hm, hk]

/-- Witness for C7: in `c7full` the block under the unparseable label
`"JohnDoe"` (its day-1 data row) is excluded — the import cleans to the
same output as the file without that block. -/
theorem c7_dropped_label_block_excluded_witness :
    getCell demoHeader (labelRow "JohnDoe") "Date" = some (Cell.text "JohnDoe") ∧
      extract_user_info "JohnDoe" = none ∧
      (∀ q ∈ [dayRow 1 540 1020 480], isLabelCell (getCell demoHeader q "Date") = false) ∧
      clean_data ⟨demoHeader, [] ++ labelRow "JohnDoe" ::
          ([dayRow 1 540 1020 480] ++ [labelRow "101 - John Doe", dayRow 2 541 1021 480])⟩ [] =
        clean_data ⟨demoHeader, [] ++ labelRow "JohnDoe" ::
          [labelRow "101 - John Doe", dayRow 2 541 1021 480]⟩ [] :=
  ⟨by decide, by decide, by decide,
    c7_dropped_label_block_excluded demoHeader [] [dayRow 1 540 1020 480]
      [labelRow "101 - John Doe", dayRow 2 541 1021 480] (labelRow "JohnDoe") "JohnDoe" []
      (by decide) (by decide) (by decide)⟩

/-- C10: data rows that appear before the first label row of the file are
excluded from the cleaned output: `current_user_id` starts unset (line
205), so those rows are tagged with no employee identifier and removed by
the `user_id`-notna filter (line 240) — deleting the whole leading
label-free prefix does not change `clean_data`'s result. -/
theorem c10_rows_before_first_label_excluded (header : List String)
    (pre rest : List (List Cell)) (edb : List Employee)
    (hpre : ∀ q ∈ pre, isLabelCell (getCell header q "Date") = false) :
    clean_data ⟨header, pre ++ rest⟩ edb = clean_data ⟨header, rest⟩ edb := by
  by_cases hcol : hasCol header "Date"
  · have hnames : collectLabels ⟨header, pre ++ rest⟩ = collectLabels ⟨header, rest⟩ := by
      unfold collectLabels
      simp only [hcol, if_true]
      congr 1
      simp only [List.filterMap_append]
      rw [collectNames_nolabel_nil header pre hpre]
      simp
    unfold clean_data
    rw [hnames]
    cases hn : collectLabels ⟨header, rest⟩ with
    | none => rfl
    | some names =>
      by_cases hm : (get_or_create_users_batch names edb).2.isEmpty
      · simp [hm]
      · by_cases hk : requiredCols.all (fun c => hasCol header c)
        · simp only [hm, Bool.false_eq_true, if_false, hk, if_true]
          congr 2
          rw [assignLoop_append _ _ none pre rest, curAfter_nolabel _ _ none pre hpre]
          rw [List.filterMap_append,
            filterMap_optmap_none header (assignLoop _ header none pre)
              (assignLoop_nolabel _ header none pre hpre)]
          simp
        · simp [hm, hk]
  · simp only [Bool.not_eq_true] at hcol
    unfold clean_data collectLabels
    simp only [hcol, Bool.false_eq_true, if_false]
    by_cases hall : (pre ++ rest).isEmpty
    · rcases List.append_eq_nil.mp (List.isEmpty_iff.mp hall) with ⟨hp, hq⟩
      subst hp; subst hq; rfl
    · simp only [hall, Bool.false_eq_true, if_false]
      by_cases hrest : rest.isEmpty
      · simp only [hrest, if_true]
        simp [get_or_create_users_batch, userInfo]
      · simp [hrest]

/-- Witness for C10: the day-1 data row of `c10full` precedes the first
label row and is excluded. -/
theorem c10_rows_before_first_label_excluded_witness :
    (∀ q ∈ [dayRow 1 540 1020 480], isLabelCell (getCell demoHeader q "Date") = false) ∧
      clean_data ⟨demoHeader, [dayRow 1 540 1020 480] ++
          [labelRow "101 - John Doe", dayRow 2 541 1021 480]⟩ [] =
        clean_data ⟨demoHeader, [labelRow "101 - John Doe", dayRow 2 541 1021 480]⟩ [] :=
  ⟨by decide,
    c10_rows_before_first_label_excluded demoHeader [dayRow 1 540 1020 480]
      [labelRow "101 - John Doe", dayRow 2 541 1021 480] [] (by decide)⟩

/-- Python `split` always yields at least one part. -/
theorem splitCh_ne_nil (c : Char) (l : List Char) : splitCh c l ≠ [] := by
  cases l with
  | nil => simp [splitCh]
  | cons x xs =>
    simp only [splitCh]
    cases h : splitCh c xs with
    | nil => simp
    | cons hh tt => by_cases hx : x = c <;> simp [hx]

/-- A string without the separator is returned whole. -/
theorem splitCh_not_mem (c : Char) (l : List Char) (h : ¬ c ∈ l) : splitCh c l = [l] := by
  induction l with
  | nil => rfl
  | cons x xs ih =>
    have hx : x ≠ c := fun he => h (he ▸ List.mem_cons_self x xs)
    have hxs : ¬ c ∈ xs := fun hm => h (List.mem_cons_of_mem x hm)
    simp only [splitCh, ih hxs, if_neg hx]

/-- Splitting at the first separator occurrence. -/
theorem splitCh_append (a r : List Char) (ha : ¬ '-' ∈ a) :
    splitCh '-' (a ++ '-' :: r) = a :: splitCh '-' r := by
  induction a with
  | nil =>
    simp only [List.nil_append, splitCh]
    rcases List.exists_cons_of_ne_nil (splitCh_ne_nil '-' r) with ⟨h, t, heq⟩
    rw [heq]
    simp
  | cons x xs ih =>
    have hx : x ≠ '-' := fun he => ha (he ▸ List.mem_cons_self x xs)
    have hxs : ¬ '-' ∈ xs := fun hm => ha (List.mem_cons_of_mem x hm)
    simp only [List.cons_append, splitCh, List.append_eq, ih hxs, if_neg hx]

/-- C6 amended: `extract_user_info` splits on **every** `'-'` and keeps the
first two parts: the identifier is the trimmed text before the first
separator, but the display name is only the trimmed segment between the
first and second separators — any text after a second `'-'` (a hyphenated
display name) is discarded, and the separator need not be surrounded by
spaces. -/
theorem c6_amended_split_segments (a b : List Char)
    (ha : ¬ '-' ∈ a) (hb : ¬ '-' ∈ b) :
    extract_user_info ⟨a ++ '-' :: b⟩ = some (⟨pyStrip a⟩, ⟨pyStrip b⟩) ∧
      ∀ cs : List Char, extract_user_info ⟨a ++ '-' :: (b ++ '-' :: cs)⟩ =
        some (⟨pyStrip a⟩, ⟨pyStrip b⟩) := by
  constructor
  · unfold extract_user_info
    have ht : (⟨a ++ '-' :: b⟩ : String).toList = a ++ '-' :: b := rfl
    rw [ht, splitCh_append a b ha, splitCh_not_mem '-' b hb]
  · intro cs
    unfold extract_user_info
    have ht : (⟨a ++ '-' :: (b ++ '-' :: cs)⟩ : String).toList =
        a ++ '-' :: (b ++ '-' :: cs) := rfl
    rw [ht, splitCh_append a (b ++ '-' :: cs) ha, splitCh_append b cs hb]

/-- Witness for amended C6 on the label `"101 - Mary-Jane Doe"`: the name
part is the segment `" Mary"` (trimmed to `"Mary"`) and the trailing
`"Jane Doe"` is discarded. -/
theorem c6_amended_split_segments_witness :
    (¬ '-' ∈ ['1', '0', '1', ' ']) ∧ (¬ '-' ∈ [' ', 'M', 'a', 'r', 'y']) ∧
      (extract_user_info ⟨['1', '0', '1', ' '] ++ '-' :: [' ', 'M', 'a', 'r', 'y']⟩ =
          some (⟨pyStrip ['1', '0', '1', ' ']⟩, ⟨pyStrip [' ', 'M', 'a', 'r', 'y']⟩) ∧
        ∀ cs : List Char,
          extract_user_info
              ⟨['1', '0', '1', ' '] ++ '-' :: ([' ', 'M', 'a', 'r', 'y'] ++ '-' :: cs)⟩ =
            some (⟨pyStrip ['1', '0', '1', ' ']⟩, ⟨pyStrip [' ', 'M', 'a', 'r', 'y']⟩)) :=
  ⟨by decide, by decide,
    c6_amended_split_segments ['1', '0', '1', ' '] [' ', 'M', 'a', 'r', 'y']
      (by decide) (by decide)⟩

/-- The rows queued for bulk insert are exactly the dict misses, in order
(`records_to_insert`, lines 328-336). -/
theorem processRows_ins (dict : List ((String × Nat) × Nat)) (vs : List VRow) :
    ∀ db ins upd, (processRows dict (db, ins, upd) vs).2.1 =
      ins ++ vs.filterMap (fun v =>
        if (dictGet dict (v.user_id, v.date)).isSome then none else some (mkRec v)) := by
  induction vs with
  | nil => intro db ins upd; simp [processRows]
  | cons v rest ih =>
    intro db ins upd
    simp only [processRows]
    cases hd : dictGet dict (v.user_id, v.date) with
    | some i =>
      simp only [List.filterMap_cons, hd, Option.isSome_some, if_true]
      exact ih _ ins _
    | none =>
      simp only [List.filterMap_cons, hd, Option.isSome_none, Bool.false_eq_true, if_false]
      rw [ih db (ins ++ [mkRec v]) upd]
      simp

/-- `updated_count` counts exactly the dict hits (line 327). -/
theorem processRows_upd (dict : List ((String × Nat) × Nat)) (vs : List VRow) :
    ∀ db ins upd, (processRows dict (db, ins, upd) vs).2.2 =
      upd + vs.countP (fun v => (dictGet dict (v.user_id, v.date)).isSome) := by
  induction vs with
  | nil => intro db ins upd; simp [processRows]
  | cons v rest ih =>
    intro db ins upd
    simp only [processRows]
    cases hd : dictGet dict (v.user_id, v.date) with
    | some i =>
      simp only [List.countP_cons, hd, Option.isSome_some, if_pos]
      rw [ih]
      omega
    | none =>
      simp only [List.countP_cons, hd, Option.isSome_none]
      rw [ih]
      simp

/-- Overwriting the time fields of a record in place preserves the
`(emp_id, attendance_date)` key at every position. -/
theorem map_key_set (db : List AttRecord) (i : Nat) (old new : AttRecord)
    (hget : db.get? i = some old)
    (hkey : new.emp_id = old.emp_id ∧ new.attendance_date = old.attendance_date) :
    (db.set i new).map (fun r => (r.emp_id, r.attendance_date)) =
      db.map (fun r => (r.emp_id, r.attendance_date)) := by
  induction db generalizing i with
  | nil => cases hget
  | cons h t ih =>
    cases i with
    | zero =>
      have : h = old := by simpa using hget
      subst this
      simp [List.set, hkey.1, hkey.2]
    | succ j =>
      have hj : t.get? j = some old := by simpa using hget
      simp [List.set, ih j hj]

/-- The update loop never changes any record's key (updates only overwrite
time fields, inserts are queued separately). -/
theorem processRows_keys (dict : List ((String × Nat) × Nat)) (vs : List VRow) :
    ∀ db ins upd, (processRows dict (db, ins, upd) vs).1.map
        (fun r => (r.emp_id, r.attendance_date)) =
      db.map (fun r => (r.emp_id, r.attendance_date)) := by
  induction vs with
  | nil => intro db ins upd; simp [processRows]
  | cons v rest ih =>
    intro db ins upd
    simp only [processRows]
    cases hd : dictGet dict (v.user_id, v.date) with
    | some i =>
      cases hg : db.get? i with
      | some old =>
        rw [ih, hg]
        exact map_key_set db i old _ hg ⟨rfl, rfl⟩
      | none => rw [ih, hg]
    | none => rw [ih]

/-- Length of the miss filter: one insert per miss. -/
theorem length_filterMap_miss (dict : List ((String × Nat) × Nat)) (vs : List VRow) :
    (vs.filterMap (fun v =>
      if (dictGet dict (v.user_id, v.date)).isSome then none else some (mkRec v))).length =
      vs.countP (fun v => !(dictGet dict (v.user_id, v.date)).isSome) := by
  induction vs with
  | nil => rfl
  | cons v rest ih =>
    simp only [List.filterMap_cons, List.countP_cons]
    cases hd : dictGet dict (v.user_id, v.date) with
    | some i => simp [ih]
    | none => simp [ih]

/-- C8 amended: `load_data_to_db` returns only a boolean success flag to
its caller (lines 350/358); the `inserted` and `updated` counts are written
to the operational log only (lines 346-347) and are nevertheless accurate —
one insert per row whose key misses the pre-fetched date-range dict, one
update per hit — while no `skipped` count is computed anywhere. -/
theorem c8_amended_counts_logged (df : List CRow) (db : List AttRecord)
    (h : validRows df ≠ []) :
    (load_data_to_db df db).ret = true ∧
      (load_data_to_db df db).logInserted = (validRows df).countP (fun v =>
        !(dictGet (buildDict db (minDate (validRows df)) (maxDate (validRows df)))
          (v.user_id, v.date)).isSome) ∧
      (load_data_to_db df db).logUpdated = (validRows df).countP (fun v =>
        (dictGet (buildDict db (minDate (validRows df)) (maxDate (validRows df)))
          (v.user_id, v.date)).isSome) := by
  have hdf : df.isEmpty = false := by
    cases df with
    | nil => exact absurd rfl h
    | cons a l => rfl
  have hvs : (validRows df).isEmpty = false := by
    cases hv : validRows df with
    | nil => exact absurd hv h
    | cons a l => rfl
  unfold load_data_to_db
  simp only [hdf, hvs, Bool.false_eq_true, if_false]
  refine ⟨by trivial, ?_, ?_⟩
  · simp only [processRows_ins, List.nil_append]
    exact length_filterMap_miss _ _
  · simp only [processRows_upd, Nat.zero_add]

/-- Witness for amended C8 on `c8df1` against the empty store. -/
theorem c8_amended_counts_logged_witness :
    validRows c8df1 ≠ [] ∧
      ((load_data_to_db c8df1 []).ret = true ∧
        (load_data_to_db c8df1 []).logInserted = (validRows c8df1).countP (fun v =>
          !(dictGet (buildDict [] (minDate (validRows c8df1)) (maxDate (validRows c8df1)))
            (v.user_id, v.date)).isSome) ∧
        (load_data_to_db c8df1 []).logUpdated = (validRows c8df1).countP (fun v =>
          (dictGet (buildDict [] (minDate (validRows c8df1)) (maxDate (validRows c8df1)))
            (v.user_id, v.date)).isSome)) :=
  ⟨by decide, c8_amended_counts_logged c8df1 [] (by decide)⟩

/-- A dict with an entry for a key resolves that key. -/
theorem dictGet_isSome_of_mem (d : List ((String × Nat) × Nat)) (k : String × Nat)
    (e : (String × Nat) × Nat) (he : e ∈ d) (hk : e.1 = k) :
    (dictGet d k).isSome = true := by
  induction d with
  | nil => cases he
  | cons f fs ih =>
    simp only [dictGet]
    rcases List.mem_cons.mp he with h1 | h1
    · cases hd : dictGet fs k with
      | some v => simp
      | none => subst h1; simp [hk]
    · cases hd : dictGet fs k with
      | some v => simp
      | none => have := ih h1; rw [hd] at this; cases this

/-- A resolved key comes from some entry of the dict. -/
theorem dictGet_some_mem (d : List ((String × Nat) × Nat)) (k : String × Nat)
    (h : (dictGet d k).isSome = true) : ∃ e, e ∈ d ∧ e.1 = k := by
  induction d with
  | nil => simp [dictGet] at h
  | cons f fs ih =>
    simp only [dictGet] at h
    cases hd : dictGet fs k with
    | some v =>
      rcases ih (by rw [hd]; rfl) with ⟨e, he, hk⟩
      exact ⟨e, List.mem_cons_of_mem f he, hk⟩
    | none =>
      rw [hd] at h
      by_cases hf : f.1 = k
      · exact ⟨f, List.mem_cons_self f fs, hf⟩
      · rw [if_neg hf] at h; simp at h

/-- Every dict entry keys an in-range record of the table. -/
theorem buildDictGo_mem_elim (lo hi : Nat) (l : List AttRecord) :
    ∀ i e, e ∈ buildDictGo lo hi i l →
      ∃ rec, rec ∈ l ∧ e.1 = (rec.emp_id, rec.attendance_date) ∧ inRange lo hi rec = true := by
  induction l with
  | nil => intro i e he; cases he
  | cons r rs ih =>
    intro i e he
    simp only [buildDictGo] at he
    by_cases hr : inRange lo hi r
    · rw [if_pos hr] at he
      rcases List.mem_cons.mp he with h1 | h1
      · exact ⟨r, List.mem_cons_self r rs, by rw [h1], hr⟩
      · rcases ih (i + 1) e h1 with ⟨rec, hm, hk, hir⟩
        exact ⟨rec, List.mem_cons_of_mem r hm, hk, hir⟩
    · rw [if_neg hr] at he
      rcases ih (i + 1) e he with ⟨rec, hm, hk, hir⟩
      exact ⟨rec, List.mem_cons_of_mem r hm, hk, hir⟩

/-- Every in-range record of the table appears in the dict. -/
theorem buildDictGo_mem_intro (lo hi : Nat) (l : List AttRecord) (rec : AttRecord)
    (hm : rec ∈ l) (hr : inRange lo hi rec = true) :
    ∀ i, ∃ n, ((rec.emp_id, rec.attendance_date), n) ∈ buildDictGo lo hi i l := by
  induction l with
  | nil => cases hm
  | cons q qs ih =>
    intro i
    simp only [buildDictGo]
    rcases List.mem_cons.mp hm with h1 | h1
    · subst h1
      rw [if_pos hr]
      exact ⟨i, List.mem_cons_self _ _⟩
    · by_cases hq : inRange lo hi q
      · rw [if_pos hq]
        rcases ih h1 (i + 1) with ⟨n, hn⟩
        exact ⟨n, List.mem_cons_of_mem _ hn⟩
      · rw [if_neg hq]
        exact ih h1 (i + 1)

/-- The running minimum of the fold is a lower bound of the seed. -/
theorem foldl_min_le_init (t : List VRow) : ∀ a, t.foldl (fun m r => Nat.min m r.date) a ≤ a := by
  induction t with
  | nil => intro a; exact Nat.le_refl a
  | cons r rs ih =>
    intro a
    exact Nat.le_trans (ih (Nat.min a r.date)) (Nat.min_le_left _ _)

/-- The running minimum of the fold bounds every member. -/
theorem foldl_min_le_mem (t : List VRow) :
    ∀ a v, v ∈ t → t.foldl (fun m r => Nat.min m r.date) a ≤ v.date := by
  induction t with
  | nil => intro a v hv; cases hv
  | cons r rs ih =>
    intro a v hv
    rcases List.mem_cons.mp hv with h1 | h1
    · subst h1
      exact Nat.le_trans (foldl_min_le_init rs _) (Nat.min_le_right _ _)
    · exact ih _ v h1

/-- `minDate` bounds every valid row's date from below. -/
theorem minDate_le (vs : List VRow) (v : VRow) (hv : v ∈ vs) : minDate vs ≤ v.date := by
  cases vs with
  | nil => cases hv
  | cons w ws =>
    simp only [minDate]
    rcases List.mem_cons.mp hv with h1 | h1
    · subst h1; exact foldl_min_le_init ws _
    · exact foldl_min_le_mem ws _ v h1

/-- The running maximum of the fold dominates the seed. -/
theorem foldl_max_ge_init (t : List VRow) : ∀ a, a ≤ t.foldl (fun m r => Nat.max m r.date) a := by
  induction t with
  | nil => intro a; exact Nat.le_refl a
  | cons r rs ih =>
    intro a
    exact Nat.le_trans (Nat.le_max_left a r.date) (ih (Nat.max a r.date))

/-- The running maximum of the fold dominates every member. -/
theorem foldl_max_ge_mem (t : List VRow) :
    ∀ a v, v ∈ t → v.date ≤ t.foldl (fun m r => Nat.max m r.date) a := by
  induction t with
  | nil => intro a v hv; cases hv
  | cons r rs ih =>
    intro a v hv
    rcases List.mem_cons.mp hv with h1 | h1
    · subst h1
      exact Nat.le_trans (Nat.le_max_right a v.date) (foldl_max_ge_init rs _)
    · exact ih _ v h1

/-- `maxDate` bounds every valid row's date from above. -/
theorem le_maxDate (vs : List VRow) (v : VRow) (hv : v ∈ vs) : v.date ≤ maxDate vs := by
  cases vs with
  | nil => cases hv
  | cons w ws =>
    simp only [maxDate]
    rcases List.mem_cons.mp hv with h1 | h1
    · subst h1; exact foldl_max_ge_init ws _
    · exact foldl_max_ge_mem ws _ v h1

/-- A `filterMap` whose guard always holds is a `map`. -/
theorem filterMap_ite_all_some {α β : Type} (l : List α) (c : α → Bool) (f : α → β)
    (h : ∀ x ∈ l, c x = true) :
    l.filterMap (fun x => if c x then some (f x) else none) = l.map f := by
  induction l with
  | nil => rfl
  | cons a t ih =>
    simp only [List.filterMap_cons, h a (List.mem_cons_self a t), if_true, List.map_cons]
    rw [ih (fun x hx => h x (List.mem_cons_of_mem a hx))]

/-- A `filterMap` whose guard always holds and maps to `none` is empty. -/
theorem filterMap_ite_all_none {α β : Type} (l : List α) (c : α → Bool) (f : α → β)
    (h : ∀ x ∈ l, c x = true) :
    l.filterMap (fun x => if c x then none else some (f x)) = [] := by
  induction l with
  | nil => rfl
  | cons a t ih =>
    simp only [List.filterMap_cons, h a (List.mem_cons_self a t), if_true]
    exact ih (fun x hx => h x (List.mem_cons_of_mem a hx))

/-- Lookup distributes over append: the left bindings shadow the right. -/
theorem lookupStr_append (l : String) (A B : List (String × String)) :
    lookupStr l (A ++ B) =
      match lookupStr l A with
      | some v => some v
      | none => lookupStr l B := by
  induction A with
  | nil => rfl
  | cons p rest ih =>
    rcases p with ⟨k, v⟩
    simp only [List.cons_append, lookupStr]
    by_cases hk : k = l
    · simp [hk]
    · simp only [if_neg hk]
      exact ih

/-- Dropping a binding whose key differs from the looked-up key. -/
theorem lookupStr_middle_ne (l k : String) (x : String) (A B : List (String × String))
    (hne : k ≠ l) : lookupStr l (A ++ (k, x) :: B) = lookupStr l (A ++ B) := by
  induction A with
  | nil => simp [lookupStr, if_neg hne]
  | cons p rest ih =>
    rcases p with ⟨k', v⟩
    simp only [List.cons_append, lookupStr]
    by_cases hk : k' = l
    · simp [hk]
    · simp only [if_neg hk]
      exact ih

/-- A dictionary built as existing-bindings followed by new-bindings, both
drawn from `P` by a complementary condition, looks up exactly like the
plain label → id map of `P` — provided `P`'s labels are pairwise distinct. -/
theorem lookupStr_partition (P : List (String × String × String))
    (c : String × String × String → Bool) (l : String)
    (hnd : (P.map (fun i => i.1)).Nodup) :
    lookupStr l ((P.filterMap (fun i => if c i then some (i.1, i.2.1) else none)) ++
        (P.filterMap (fun i => if c i then none else some (i.1, i.2.1)))) =
      lookupStr l (P.map (fun i => (i.1, i.2.1))) := by
  induction P with
  | nil => rfl
  | cons i0 P' ih =>
    have hnd' : (P'.map (fun i => i.1)).Nodup := (List.nodup_cons.mp hnd).2
    have hni : i0.1 ∉ P'.map (fun i => i.1) := (List.nodup_cons.mp hnd).1
    simp only [List.filterMap_cons, List.map_cons]
    by_cases hc : c i0
    · simp only [hc, if_true, List.cons_append, lookupStr]
      by_cases hl : i0.1 = l
      · simp [hl]
      · simp only [if_neg hl]
        exact ih hnd'
    · simp only [hc, Bool.false_eq_true, if_false]
      by_cases hl : i0.1 = l
      · have hA : lookupStr l
            (P'.filterMap (fun i => if c i then some (i.1, i.2.1) else none)) = none := by
          apply lookupStr_eq_none_of_forall
          intro p hp
          rcases mem_filterMap_ite_some _ _ _ _ hp with ⟨j, hj, hpj⟩
          rw [hpj]
          intro he
          apply hni
          rw [hl, ← he]
          exact List.mem_map.mpr ⟨j, hj, rfl⟩
        rw [lookupStr_append, hA]
        simp [lookupStr, hl]
      · rw [lookupStr_middle_ne l i0.1 i0.2.1 _ _ hl, ih hnd']
        simp [lookupStr, hl]

/-- `parseEntry` keeps the label as the entry's key. -/
theorem parseEntry_fst (un : String) (i : String × String × String)
    (h : parseEntry un = some i) : i.1 = un := by
  unfold parseEntry at h
  cases he : extract_user_info un with
  | none => rw [he] at h; cases h
  | some pr =>
    rcases pr with ⟨uid, nm⟩
    rw [he] at h
    dsimp only at h
    by_cases hc : uid ≠ "" ∧ nm ≠ ""
    · rw [if_pos hc] at h
      cases h
      rfl
    · rw [if_neg hc] at h; cases h

/-- The labels keyed by `user_info` are pairwise distinct (dict keying). -/
theorem userInfo_keys_nodup (ns : List String) :
    ((userInfo ns).map (fun i => i.1)).Nodup := by
  unfold userInfo
  have key : ∀ l : List String, l.Nodup →
      ((l.filterMap parseEntry).map (fun i => i.1)).Nodup := by
    intro l
    induction l with
    | nil => intro _; simp
    | cons x xs ih =>
      intro hnd
      rcases List.nodup_cons.mp hnd with ⟨hx, hxs⟩
      simp only [List.filterMap_cons]
      cases hp : parseEntry x with
      | none => exact ih hxs
      | some i =>
        simp only [List.map_cons]
        refine List.nodup_cons.mpr ⟨?_, ih hxs⟩
        rw [parseEntry_fst x i hp]
        intro hmem
        rcases List.mem_map.mp hmem with ⟨j, hj, hj1⟩
        rcases List.mem_filterMap.mp hj with ⟨un, hun, hunp⟩
        rw [parseEntry_fst un j hunp] at hj1
        exact hx (by rw [← hj1]; exact hun)
  exact key ns.dedup (List.nodup_dedup ns)

/-- A non-empty map can only come from a non-empty `user_info`. -/
theorem gocb_nonempty_userInfo (ns : List String) (db : List Employee)
    (h : (get_or_create_users_batch ns db).2 ≠ []) : (userInfo ns).isEmpty = false := by
  cases hb : (userInfo ns).isEmpty with
  | false => rfl
  | true =>
    exfalso
    apply h
    simp [get_or_create_users_batch, hb]

/-- In a successful batch, the returned map looks up exactly like the plain
label → parsed-id map of `user_info` — identity resolution is a pure
function of the labels, independent of which employees already existed. -/
theorem gocb_lookup_canon (ns : List String) (db : List Employee)
    (h : (get_or_create_users_batch ns db).2 ≠ []) (l : String) :
    lookupStr l (get_or_create_users_batch ns db).2 =
      lookupStr l ((userInfo ns).map (fun i => (i.1, i.2.1))) := by
  have h0 := gocb_nonempty_userInfo ns db h
  simp only [get_or_create_users_batch, h0, Bool.false_eq_true, if_false] at h ⊢
  by_cases hC : commitOkB db (gocbNew (userInfo ns) db)
  · simp only [hC, if_true]
    exact lookupStr_partition (userInfo ns) (gocbHit (userInfo ns) db) l
      (userInfo_keys_nodup ns)
  · simp only [hC, Bool.false_eq_true, if_false] at h
    exact absurd rfl h

/-- After a successful batch, every parsed id is backed by an employee row
in the committed table. -/
theorem gocb_ids_present (ns : List String) (db : List Employee)
    (h : (get_or_create_users_batch ns db).2 ≠ []) (i : String × String × String)
    (hi : i ∈ userInfo ns) :
    ∃ e, e ∈ (get_or_create_users_batch ns db).1 ∧ e.id = i.2.1 := by
  have h0 := gocb_nonempty_userInfo ns db h
  simp only [get_or_create_users_batch, h0, Bool.false_eq_true, if_false] at h ⊢
  by_cases hC : commitOkB db (gocbNew (userInfo ns) db)
  · simp only [hC, if_true]
    by_cases hhit : gocbHit (userInfo ns) db i = true
    · unfold gocbHit gocbExisting at hhit
      rcases List.any_eq_true.mp hhit with ⟨u, hu, hdec⟩
      rcases List.mem_map.mp hu with ⟨e, hef, heid⟩
      rcases List.mem_filter.mp hef with ⟨hedb, _⟩
      refine ⟨e, List.mem_append_left _ hedb, ?_⟩
      rw [heid]
      exact of_decide_eq_true hdec
    · refine ⟨Employee.mk i.2.1 i.2.2, List.mem_append_right _ ?_, rfl⟩
      apply List.mem_filterMap.mpr
      refine ⟨i, hi, ?_⟩
      rw [if_neg hhit]
  · simp only [hC, Bool.false_eq_true, if_false] at h
    exact absurd rfl h

/-- Running the batch again when every parsed id is already present
creates nothing: the table is returned unchanged and the map is the plain
label → parsed-id map. -/
theorem gocb_stable (ns : List String) (db1 : List Employee)
    (h0 : (userInfo ns).isEmpty = false)
    (hpres : ∀ i ∈ userInfo ns, ∃ e, e ∈ db1 ∧ e.id = i.2.1) :
    get_or_create_users_batch ns db1 =
      (db1, (userInfo ns).map (fun i => (i.1, i.2.1))) := by
  have hhit : ∀ i ∈ userInfo ns, gocbHit (userInfo ns) db1 i = true := by
    intro i hi
    rcases hpres i hi with ⟨e, he, hid⟩
    unfold gocbHit gocbExisting
    apply List.any_eq_true.mpr
    refine ⟨e.id, ?_, by simp [hid]⟩
    apply List.mem_map.mpr
    refine ⟨e, ?_, rfl⟩
    apply List.mem_filter.mpr
    refine ⟨he, ?_⟩
    apply List.any_eq_true.mpr
    exact ⟨i.2.1, List.mem_map.mpr ⟨i, hi, rfl⟩, by simp [hid]⟩
  have hnew : gocbNew (userInfo ns) db1 = [] := by
    unfold gocbNew
    exact filterMap_ite_all_none _ _ _ hhit
  have hmapE : gocbMapExisting (userInfo ns) db1 =
      (userInfo ns).map (fun i => (i.1, i.2.1)) := by
    unfold gocbMapExisting
    exact filterMap_ite_all_some _ _ _ hhit
  have hmapN : gocbMapNew (userInfo ns) db1 = [] := by
    unfold gocbMapNew
    exact filterMap_ite_all_none _ _ _ hhit
  simp only [get_or_create_users_batch, h0, Bool.false_eq_true, if_false, hnew, hmapE,
    hmapN, List.append_nil]
  simp [commitOkB, nodupB]

/-- `assignLoop` only consults the map through lookups: maps with the same
lookup behaviour classify rows identically. -/
theorem assignLoop_ext (m m' : List (String × String)) (header : List String)
    (hl : ∀ s, lookupStr s m = lookupStr s m') :
    ∀ cur rows, assignLoop m header cur rows = assignLoop m' header cur rows := by
  intro cur rows
  induction rows generalizing cur with
  | nil => rfl
  | cons r rs ih =>
    simp only [assignLoop]
    cases hg : getCell header r "Date" with
    | none => exact ih cur
    | some c =>
      cases c with
      | na => exact ih cur
      | dt d t => rw [ih cur]
      | text s =>
        dsimp only
        rw [hl s]
        exact ih _

/-- Re-running `load_data_to_db` on the same frame against the table it
just produced succeeds, inserts nothing, updates every valid row, and
leaves the table's size unchanged: after the first run every
`(employee, date)` key of the frame is present in the fetched date range. -/
theorem load_second (df : List CRow) (adb : List AttRecord)
    (h : (load_data_to_db df adb).ret = true) :
    (load_data_to_db df (load_data_to_db df adb).db).ret = true ∧
      (load_data_to_db df (load_data_to_db df adb).db).logInserted = 0 ∧
      (load_data_to_db df (load_data_to_db df adb).db).logUpdated = (validRows df).length ∧
      (load_data_to_db df (load_data_to_db df adb).db).db.length =
        (load_data_to_db df adb).db.length := by
  have hdfE : df.isEmpty = false := by
    cases hd : df.isEmpty with
    | false => rfl
    | true => unfold load_data_to_db at h; rw [hd] at h; simp at h
  have hvsE : (validRows df).isEmpty = false := by
    cases hv : (validRows df).isEmpty with
    | false => rfl
    | true =>
      unfold load_data_to_db at h
      rw [hdfE] at h
      simp [hv] at h
  set vs := validRows df with hvs
  set lo := minDate vs with hlo
  set hi := maxDate vs with hhi
  have hdb1 : (load_data_to_db df adb).db =
      (processRows (buildDict adb lo hi) (adb, [], 0) vs).1 ++
        (processRows (buildDict adb lo hi) (adb, [], 0) vs).2.1 := by
    unfold load_data_to_db
    simp only [hdfE, hvsE, Bool.false_eq_true, if_false]
  set db1 := (load_data_to_db df adb).db with hdb1def
  have hcov : ∀ v ∈ vs, ∃ rec, rec ∈ db1 ∧
      (rec.emp_id, rec.attendance_date) = (v.user_id, v.date) ∧
      inRange lo hi rec = true := by
    intro v hv
    cases hd0 : dictGet (buildDict adb lo hi) (v.user_id, v.date) with
    | some i =>
      rcases dictGet_some_mem _ _ (by rw [hd0]; rfl) with ⟨e, he, hek⟩
      rcases buildDictGo_mem_elim lo hi adb 0 e he with ⟨rec, hrecm, hreck, hrecr⟩
      have hkey : (rec.emp_id, rec.attendance_date) = (v.user_id, v.date) := by
        rw [← hreck, hek]
      have hkeys := processRows_keys (buildDict adb lo hi) vs adb [] 0
      have hmem : (rec.emp_id, rec.attendance_date) ∈
          ((processRows (buildDict adb lo hi) (adb, [], 0) vs).1.map
            (fun r => (r.emp_id, r.attendance_date))) := by
        rw [hkeys]
        exact List.mem_map.mpr ⟨rec, hrecm, rfl⟩
      rcases List.mem_map.mp hmem with ⟨rec', hrec'm, hrec'k⟩
      refine ⟨rec', ?_, by rw [hrec'k, hkey], ?_⟩
      · rw [hdb1]
        exact List.mem_append_left _ hrec'm
      · have hdate : rec'.attendance_date = rec.attendance_date := congrArg Prod.snd hrec'k
        unfold inRange at hrecr ⊢
        rw [hdate]
        exact hrecr
    | none =>
      refine ⟨mkRec v, ?_, rfl, ?_⟩
      · rw [hdb1]
        apply List.mem_append_right
        rw [processRows_ins, List.nil_append]
        apply List.mem_filterMap.mpr
        exact ⟨v, hv, by simp [hd0]⟩
      · unfold inRange
        have h1 : lo ≤ (mkRec v).attendance_date := by
          rw [hlo]
          exact minDate_le vs v hv
        have h2 : (mkRec v).attendance_date ≤ hi := by
          rw [hhi]
          exact le_maxDate vs v hv
        simp [h1, h2]
  have hhits : ∀ v ∈ vs,
      (dictGet (buildDict db1 lo hi) (v.user_id, v.date)).isSome = true := by
    intro v hv
    rcases hcov v hv with ⟨rec, hm, hk, hr⟩
    rcases buildDictGo_mem_intro lo hi db1 rec hm hr 0 with ⟨n, hn⟩
    exact dictGet_isSome_of_mem _ _ _ hn hk
  have hins2 : (processRows (buildDict db1 lo hi) (db1, [], 0) vs).2.1 = [] := by
    rw [processRows_ins, List.nil_append]
    exact filterMap_ite_all_none _ _ _ hhits
  have hlen2 : (processRows (buildDict db1 lo hi) (db1, [], 0) vs).1.length = db1.length := by
    have := processRows_keys (buildDict db1 lo hi) vs db1 [] 0
    have hlm := congrArg List.length this
    simpa using hlm
  unfold load_data_to_db
  simp only [hdfE, hvsE, Bool.false_eq_true, if_false]
  refine ⟨by trivial, ?_, ?_, ?_⟩
  · rw [hins2]
    rfl
  · rw [processRows_upd, Nat.zero_add]
    exact List.countP_eq_length.mpr hhits
  · rw [hins2, List.append_nil, hlen2]

/-- C1: re-importing an identical file is idempotent.  If the first import
of a sheet succeeds, the second import of the same sheet (a) succeeds,
(b) creates no new Employee rows (the committed employee table is
unchanged), (c) creates no new AttendanceRecord rows (the attendance table
keeps its size), (d) resolves every label to the same employee identifier
as the first import, and (e) applies every cleaned row as an update —
zero inserts, one update per valid row. -/
theorem c1_reimport_idempotent (sheet : RawSheet) (edb : List Employee)
    (adb : List AttRecord)
    (h : (importFile sheet edb adb).2.2 = true) :
    (importFile sheet (importFile sheet edb adb).1 (importFile sheet edb adb).2.1).2.2
        = true ∧
      (importFile sheet (importFile sheet edb adb).1 (importFile sheet edb adb).2.1).1 =
        (importFile sheet edb adb).1 ∧
      (importFile sheet (importFile sheet edb adb).1
          (importFile sheet edb adb).2.1).2.1.length =
        (importFile sheet edb adb).2.1.length ∧
      (∀ ns, collectLabels sheet = some ns → ∀ l,
        lookupStr l (get_or_create_users_batch ns (importFile sheet edb adb).1).2 =
          lookupStr l (get_or_create_users_batch ns edb).2) ∧
      (∀ df, (clean_data sheet (importFile sheet edb adb).1).2 = some df →
        (load_data_to_db df (importFile sheet edb adb).2.1).logInserted = 0 ∧
        (load_data_to_db df (importFile sheet edb adb).2.1).logUpdated =
          (validRows df).length) := by
  rcases hc : clean_data sheet edb with ⟨e1, o⟩
  unfold importFile at h
  rw [hc] at h
  cases o with
  | none => simp at h
  | some df0 =>
    cases hdf : df0.isEmpty with
    | true => simp [hdf] at h
    | false =>
      simp only [hdf, Bool.false_eq_true, if_false] at h
      have hfirst : importFile sheet edb adb = (e1, (load_data_to_db df0 adb).db, true) := by
        unfold importFile
        rw [hc]
        simp only [hdf, Bool.false_eq_true, if_false]
        rw [h]
      have hld := load_second df0 adb h
      unfold clean_data at hc
      cases hcl : collectLabels sheet with
      | none => rw [hcl] at hc; simp at hc
      | some ns =>
        rw [hcl] at hc
        simp only at hc
        by_cases hm : (get_or_create_users_batch ns edb).2.isEmpty = true
        · rw [if_pos hm] at hc; simp at hc
        · rw [if_neg hm] at hc
          by_cases hk : requiredCols.all (fun c => hasCol sheet.header c) = true
          · rw [if_pos hk] at hc
            have he1 : (get_or_create_users_batch ns edb).1 = e1 := congrArg Prod.fst hc
            have hX : (assignLoop (get_or_create_users_batch ns edb).2 sheet.header none
                sheet.rows).filterMap
                  (fun p => p.1.map (fun uid => toCRow sheet.header uid p.2)) = df0 :=
              Option.some.inj (congrArg Prod.snd hc)
            have hmne : (get_or_create_users_batch ns edb).2 ≠ [] := by
              intro hnil
              rw [hnil] at hm
              exact hm rfl
            have h0 := gocb_nonempty_userInfo ns edb hmne
            have hpres : ∀ i ∈ userInfo ns, ∃ e, e ∈ e1 ∧ e.id = i.2.1 := by
              intro i hi
              rcases gocb_ids_present ns edb hmne i hi with ⟨e, he, hid⟩
              refine ⟨e, ?_, hid⟩
              rw [← he1]
              exact he
            have hstable := gocb_stable ns e1 h0 hpres
            have hlook : ∀ l, lookupStr l (get_or_create_users_batch ns e1).2 =
                lookupStr l (get_or_create_users_batch ns edb).2 := by
              intro l
              rw [hstable]
              exact (gocb_lookup_canon ns edb hmne l).symm
            have hmE : ((userInfo ns).map (fun i => (i.1, i.2.1))).isEmpty = false := by
              cases hE : (userInfo ns) with
              | nil => rw [hE] at h0; simp at h0
              | cons a t => simp
            have hext : assignLoop ((userInfo ns).map (fun i => (i.1, i.2.1))) sheet.header
                none sheet.rows =
                assignLoop (get_or_create_users_batch ns edb).2 sheet.header none
                  sheet.rows := by
              apply assignLoop_ext
              intro s
              have := gocb_lookup_canon ns edb hmne s
              rw [this]
            have hclean2 : clean_data sheet e1 = (e1, some df0) := by
              unfold clean_data
              rw [hcl]
              simp only [hstable, hmE, Bool.false_eq_true, if_false, hk, if_true]
              rw [hext, hX]
            have hsecond : importFile sheet e1 (load_data_to_db df0 adb).db =
                (e1, (load_data_to_db df0 (load_data_to_db df0 adb).db).db, true) := by
              unfold importFile
              rw [hclean2]
              simp only [hdf, Bool.false_eq_true, if_false]
              rw [hld.1]
            rw [hfirst]
            simp only
            rw [hsecond]
            refine ⟨rfl, rfl, hld.2.2.2, ?_, ?_⟩
            · intro ns1 hns1 l
              have hns : ns1 = ns := (Option.some.inj hns1).symm
              subst hns
              exact hlook l
            · intro df hdf2
              rw [hclean2] at hdf2
              simp only at hdf2
              have : df = df0 := (Option.some.inj hdf2).symm
              subst this
              exact ⟨hld.2.1, hld.2.2.1⟩
          · rw [if_neg hk] at hc
            simp at hc

/-- Witness for C1: the three-day import `c1sheet` succeeds from the empty
store, and re-importing it is idempotent. -/
theorem c1_reimport_idempotent_witness :
    (importFile c1sheet [] []).2.2 = true ∧
      ((importFile c1sheet (importFile c1sheet [] []).1
          (importFile c1sheet [] []).2.1).2.2 = true ∧
        (importFile c1sheet (importFile c1sheet [] []).1
            (importFile c1sheet [] []).2.1).1 = (importFile c1sheet [] []).1 ∧
        (importFile c1sheet (importFile c1sheet [] []).1
            (importFile c1sheet [] []).2.1).2.1.length =
          (importFile c1sheet [] []).2.1.length ∧
        (∀ ns, collectLabels c1sheet = some ns → ∀ l,
          lookupStr l (get_or_create_users_batch ns (importFile c1sheet [] []).1).2 =
            lookupStr l (get_or_create_users_batch ns []).2) ∧
        (∀ df, (clean_data c1sheet (importFile c1sheet [] []).1).2 = some df →
          (load_data_to_db df (importFile c1sheet [] []).2.1).logInserted = 0 ∧
          (load_data_to_db df (importFile c1sheet [] []).2.1).logUpdated =
            (validRows df).length)) :=
  ⟨by decide, c1_reimport_idempotent c1sheet [] [] (by decide)⟩
